import Mathlib

/-!
# Verification of the `stocks` ingestion/merge pipeline

Shallow embedding of `src/stocks/cli.py`: the date resolver (`parse_date`),
the ticker-set resolver and batching loop of `download`, the per-symbol
schema normalisation, and the merge-dedup-sort persistence step
(lines 171–180 of `cli.py`).

Conventions of the embedding:
* Instants are `Int` values counting seconds anchored to the fixed
  US/Eastern reference zone (the code compares and adds `timedelta`s on
  `datetime` values in that zone; `timedelta(days=k)` is `k * 86400`).
* A data-frame row is a `PriceRecord`; a pandas frame is a `List` of rows
  in row order.  `pd.concat` is `List.append`,
  `drop_duplicates(subset=['Date'], keep='last')` keeps a row exactly when
  no later row has the same date, `sort_values(by='Date')` sorts ascending
  by date.
* Python exceptions become an `Except` result: `click.BadParameter` and
  `ValueError` are the two constructors of `DateError`.
-/

namespace Stocks

/-- One row of a symbol's series (`Date, Open, High, Low, Close, Adj Close,
Volume`).  Dates are encoded as naturals ordered like the calendar dates
they stand for (e.g. `20240102`). -/
structure PriceRecord where
  date : Nat
  open_ : Int
  high : Int
  low : Int
  close : Int
  adjClose : Int
  volume : Int
deriving DecidableEq, Repr

/-- The dates of a frame, in row order. -/
def datesOf (l : List PriceRecord) : List Nat := l.map (·.date)

/-- Pandas `df.drop_duplicates(subset=['Date'], keep='last')`: a row is kept
exactly when no later row carries the same date; kept rows stay in their
original order. -/
def dropDupKeepLast : List PriceRecord → List PriceRecord
  | [] => []
  | r :: rest =>
    if rest.any (fun x => x.date = r.date) then dropDupKeepLast rest
    else r :: dropDupKeepLast rest

/-- Pandas `df.sort_values(by='Date')`: sort ascending by date (the merge path
only sorts frames whose dates are already unique, so tie-breaking is
irrelevant; we use insertion sort). -/
def sortByDate (l : List PriceRecord) : List PriceRecord :=
  List.insertionSort (fun a b => a.date ≤ b.date) l

/-- Lines 171–180 of `cli.py`: the merge-and-persist step for one symbol.
`old = some df_old` models `os.path.isfile(save_path)` being true with
`df_old` the loaded prior file; `old = none` models the no-prior-file
branch, which assigns `df = df_symbol` unchanged.  The returned list is
the frame written by `df.to_csv(save_path)`. -/
def mergeStep : Option (List PriceRecord) → List PriceRecord → List PriceRecord
  | some df_old, incoming => sortByDate (dropDupKeepLast (df_old ++ incoming))
  | none, incoming => incoming

/-- The persisted series has unique dates in ascending order. -/
def uniqueAscending (l : List PriceRecord) : Prop :=
  l.Pairwise (fun a b => a.date < b.date)

instance : DecidablePred uniqueAscending := fun l =>
  List.instDecidablePairwise l

instance : IsTotal PriceRecord (fun a b => a.date ≤ b.date) :=
  ⟨fun a b => Nat.le_total a.date b.date⟩

instance : IsTrans PriceRecord (fun a b => a.date ≤ b.date) :=
  ⟨fun _ _ _ => Nat.le_trans⟩

/-! ## The date resolver (`parse_date`, lines 30–58) -/

/-- The two exception kinds `parse_date` can raise: `click.BadParameter`
(the spec's `InvalidDateExpression`) and a plain `ValueError` (raised by
`datetime.strptime` on a malformed absolute date). -/
inductive DateError where
  | badParameter (msg : String)
  | valueError (msg : String)
deriving DecidableEq, Repr

/-- Digits-only string to number; `none` when empty or a non-digit occurs. -/
def parseDigits (cs : List Char) : Option Nat :=
  if cs.isEmpty then none
  else if cs.all Char.isDigit then
    some (cs.foldl (fun a c => a * 10 + (c.toNat - '0'.toNat)) 0)
  else none

/-- The whitespace characters CPython strips around an `int()` literal
(`Py_UNICODE_ISSPACE` restricted to code points below U+0100; the
non-Latin-1 Unicode space separators are outside this model). -/
def pyIsSpace (c : Char) : Bool :=
  [' ', '\t', '\n', '\x0b', '\x0c', '\r',
    '\x1c', '\x1d', '\x1e', '\x1f', '\x85', '\xa0'].contains c

/-- Strip leading and trailing whitespace, as `int()` does. -/
def stripWs (cs : List Char) : List Char :=
  ((cs.dropWhile pyIsSpace).reverse.dropWhile pyIsSpace).reverse

/-- Continuation of the `int()` digit grammar after its first digit: a
sequence of digits in which a single `'_'` may appear between two digits
(`digit (('_')? digit)*`). -/
def undTail : List Char → Bool
  | [] => true
  | c :: rest =>
    if c = '_' then
      match rest with
      | [] => false
      | c2 :: rest2 => c2.isDigit && undTail rest2
    else c.isDigit && undTail rest

/-- The `int()` digit-run grammar: non-empty, starts with a digit, single
underscores only between digits. -/
def isUndDigits : List Char → Bool
  | [] => false
  | c :: rest => c.isDigit && undTail rest

/-- Value of an `int()` digit run; `none` unless `isUndDigits`. -/
def pyIntDigits (cs : List Char) : Option Nat :=
  if isUndDigits cs then
    some ((cs.filter (fun c => c != '_')).foldl
      (fun a c => a * 10 + (c.toNat - '0'.toNat)) 0)
  else none

/-- Python `int(s)` in base 10: optional surrounding whitespace, an
optional single sign, then a non-empty digit run in which single
underscores may separate digits (e.g. `int("1_0") = 10`,
`int(" 3 ") = 3`).  Non-ASCII decimal digits are outside this model. -/
def pyInt (cs : List Char) : Option Int :=
  match stripWs cs with
  | '-' :: ds => (pyIntDigits ds).map (fun n => -(n : Int))
  | '+' :: ds => (pyIntDigits ds).map (fun n => (n : Int))
  | ds => (pyIntDigits ds).map (fun n => (n : Int))

def isLeap (y : Int) : Bool :=
  y % 4 = 0 && (y % 100 != 0 || y % 400 = 0)

def daysInMonth (y : Int) (m : Nat) : Nat :=
  match m with
  | 1 => 31 | 2 => if isLeap y then 29 else 28 | 3 => 31 | 4 => 30
  | 5 => 31 | 6 => 30 | 7 => 31 | 8 => 31 | 9 => 30 | 10 => 31
  | 11 => 30 | 12 => 31 | _ => 0

/-- Days from 1970-01-01 to the civil date `y-m-d` (standard civil-date
algorithm); all divisions act on non-negative operands. -/
def daysFromCivil (y : Int) (m d : Nat) : Int :=
  let y' : Int := if m ≤ 2 then y - 1 else y
  let era : Int := (if 0 ≤ y' then y' else y' - 399) / 400
  let yoe : Int := y' - era * 400
  let mp : Int := if 2 < m then (m : Int) - 3 else (m : Int) + 9
  let doy : Int := (153 * mp + 2) / 5 + (d : Int) - 1
  let doe : Int := yoe * 365 + yoe / 4 - yoe / 100 + doy
  era * 146097 + doe - 719468

/-- Python `str.split('-')` on a character list (same contract as Python's
`split`: separators delimit possibly-empty fields). -/
def splitOnChar (sep : Char) : List Char → List (List Char)
  | [] => [[]]
  | c :: rest =>
    let r := splitOnChar sep rest
    if c = sep then [] :: r
    else
      match r with
      | g :: gs => (c :: g) :: gs
      | [] => [[c]]

/-- Python `datetime.strptime(s, '%Y-%m-%d')`: `%Y` matches exactly four
digits (CPython compiles it to `\d\d\d\d`), `%m` and `%d` match one or
two digits, the month and the day of that month must be in range, and
`datetime` requires a positive year; `none` models the `ValueError`
strptime raises otherwise. -/
def strptimeYmd (cs : List Char) : Option (Int × Nat × Nat) :=
  match (splitOnChar '-' cs).map id with
  | [ys, ms, ds] =>
    match parseDigits ys, parseDigits ms, parseDigits ds with
    | some y, some m, some d =>
      if ys.length = 4 ∧ ms.length ≤ 2 ∧ ds.length ≤ 2 ∧ 1 ≤ y ∧
          1 ≤ m ∧ m ≤ 12 ∧ 1 ≤ d ∧ d ≤ daysInMonth (y : Int) m then
        some ((y : Int), m, d)
      else none
    | _, _, _ => none
  | _ => none

/-- The `unit` dispatch of lines 46–53: `timedelta(days = value * sign)`
(resp. `* 30`, `* 365`) in seconds, or `click.BadParameter` on an
unrecognised unit. -/
def applyUnit (now value sign : Int) (unit : Char) : Except DateError Int :=
  if unit = 'd' then .ok (now + value * sign * 86400)
  else if unit = 'm' then .ok (now + value * 30 * sign * 86400)
  else if unit = 'y' then .ok (now + value * 365 * sign * 86400)
  else .error (.badParameter "Invalid relative date unit")

/-- The relative branch of `parse_date` (lines 36–55) for a string whose
first character `c` is `'_'` or `'+'` and remaining characters are
`rest`: `value_part = date_str[1:-1]` is `rest.dropLast` and
`unit = date_str[-1]` is `rest.getLastD c`. -/
def parseRelative (c : Char) (rest : List Char) (now : Int) :
    Except DateError Int :=
  match pyInt rest.dropLast with
  | none => .error (.badParameter "Invalid relative date value")
  | some value =>
    applyUnit now value (if c = '_' then -1 else 1) (rest.getLastD c)

/-- The absolute branch (line 58): `strptime(date_str, '%Y-%m-%d')`
localised to midnight of the parsed civil date, or the `ValueError`
strptime raises. -/
def parseAbsolute (cs : List Char) : Except DateError Int :=
  match strptimeYmd cs with
  | some (y, m, d) => .ok (daysFromCivil y m d * 86400)
  | none => .error (.valueError "time data does not match format")

/-- Body of `parse_date` on the string's characters.  Python's
`date_str == 'now'`, `startswith`, `date_str[1:-1]` and `date_str[-1]`
are the corresponding character-list operations (`String` equality is
equality of the character data). -/
def parse_dateChars : List Char → Int → Except DateError Int
  | [], _ => parseAbsolute []
  | c :: rest, now =>
    if c :: rest = ['n', 'o', 'w'] then .ok now
    else if c = '_' ∨ c = '+' then parseRelative c rest now
    else parseAbsolute (c :: rest)

/-- Function `parse_date(date_str)` for a fixed current instant `now`: absolute
dates return local midnight of the parsed civil date, relative forms
return `now` shifted by `value * sign` units. -/
def parse_date (s : String) (now : Int) : Except DateError Int :=
  parse_dateChars s.data now

theorem parse_dateChars_cons (c : Char) (rest : List Char) (now : Int) :
    parse_dateChars (c :: rest) now
      = if c :: rest = ['n', 'o', 'w'] then .ok now
        else if c = '_' ∨ c = '+' then parseRelative c rest now
        else parseAbsolute (c :: rest) := rfl

theorem parseRelative_none {rest : List Char} (c : Char) (now : Int)
    (hpy : pyInt rest.dropLast = none) :
    parseRelative c rest now
      = .error (.badParameter "Invalid relative date value") := by
  unfold parseRelative
  rw [hpy]

theorem parseRelative_some {rest : List Char} {value : Int} (c : Char)
    (now : Int) (hpy : pyInt rest.dropLast = some value) :
    parseRelative c rest now
      = applyUnit now value (if c = '_' then -1 else 1) (rest.getLastD c) := by
  unfold parseRelative
  rw [hpy]

theorem parseAbsolute_none {cs : List Char} (h : strptimeYmd cs = none) :
    parseAbsolute cs = .error (.valueError "time data does not match format") := by
  unfold parseAbsolute
  rw [h]

theorem not_space_of_digit {c : Char} (h : c.isDigit = true) :
    pyIsSpace c = false := by
  by_contra hn
  rw [Bool.not_eq_false] at hn
  simp only [pyIsSpace, List.contains_eq_any_beq, List.any_eq_true,
    List.mem_cons, List.not_mem_nil, or_false, beq_iff_eq,
    exists_eq_or_imp, exists_eq_left] at hn
  rcases hn with hn | hn | hn | hn | hn | hn | hn | hn | hn | hn | hn | hn <;>
    subst hn <;> exact absurd h (by decide)

theorem dropWhile_eq_self_of_all {p : Char → Bool} :
    ∀ {l : List Char}, (∀ x ∈ l, p x = false) → l.dropWhile p = l
  | [], _ => rfl
  | x :: xs, h => by
    rw [List.dropWhile_cons, h x (List.mem_cons_self _ _)]
    simp

theorem stripWs_eq_self {l : List Char} (h : ∀ x ∈ l, pyIsSpace x = false) :
    stripWs l = l := by
  unfold stripWs
  rw [dropWhile_eq_self_of_all h,
    dropWhile_eq_self_of_all (fun x hx => h x (List.mem_reverse.mp hx)),
    List.reverse_reverse]

theorem all_digit_undTail :
    ∀ {l : List Char}, l.all Char.isDigit = true → undTail l = true
  | [], _ => rfl
  | c :: rest, h => by
    rw [List.all_cons, Bool.and_eq_true] at h
    have hc : ¬ c = '_' := by
      intro he
      subst he
      exact absurd h.1 (by decide)
    unfold undTail
    rw [if_neg hc, h.1, all_digit_undTail h.2]
    rfl

theorem pyIntDigits_of_parseDigits {ds : List Char} {v : Nat}
    (h : parseDigits ds = some v) : pyIntDigits ds = some v := by
  unfold parseDigits at h
  cases he : ds.isEmpty with
  | true => rw [he] at h; simp at h
  | false =>
  cases ha : ds.all Char.isDigit with
  | false => rw [he, ha] at h; simp at h
  | true =>
  rw [he, ha] at h
  simp at h
  have hfil : ds.filter (fun c => c != '_') = ds := by
    rw [List.filter_eq_self]
    intro a ha2
    have hd : a.isDigit = true := by
      rw [List.all_eq_true] at ha
      exact ha a ha2
    rw [bne_iff_ne]
    intro he2
    subst he2
    exact absurd hd (by decide)
  have hund : isUndDigits ds = true := by
    cases ds with
    | nil => simp at he
    | cons c rest =>
      rw [List.all_cons, Bool.and_eq_true] at ha
      show (c.isDigit && undTail rest) = true
      rw [ha.1, all_digit_undTail ha.2]
      rfl
  unfold pyIntDigits
  rw [if_pos hund, hfil]
  exact congrArg some h

theorem pyInt_neg_digits {ds : List Char} {v : Nat}
    (h : parseDigits ds = some v) : pyInt ('-' :: ds) = some (-(v : Int)) := by
  have ha : ds.all Char.isDigit = true := by
    unfold parseDigits at h
    cases he : ds.isEmpty with
    | true => rw [he] at h; simp at h
    | false =>
    cases ha : ds.all Char.isDigit with
    | false => rw [he, ha] at h; simp at h
    | true => rfl
  have hstrip : stripWs ('-' :: ds) = '-' :: ds := by
    refine stripWs_eq_self ?_
    intro x hx
    rcases List.mem_cons.mp hx with rfl | hx
    · decide
    · exact not_space_of_digit (List.all_eq_true.mp ha x hx)
  unfold pyInt
  rw [hstrip]
  show (pyIntDigits ds).map (fun n => -(n : Int)) = some (-(v : Int))
  rw [pyIntDigits_of_parseDigits h]
  rfl

/-! ## Ticker-set resolution and batching (`download`, lines 87–115) -/

/-- The three shapes `--ticker` can denote.  A reference file is its
`Symbol` column: a list of cells, `none` for a missing (NaN) value. -/
inductive TickerSource where
  | dir (files : List (List (Option String)))
  | file (cells : List (Option String))
  | inline (s : String)

/-- Python `str.upper()`, modelled on the character data. -/
def pyUpper (s : String) : String :=
  String.mk (s.data.map Char.toUpper)

/-- Python `str.strip()` (default whitespace), modelled on the character
data. -/
def pyStrip (s : String) : String :=
  String.mk
    (((s.data.dropWhile Char.isWhitespace).reverse.dropWhile
      Char.isWhitespace).reverse)

/-- Python `str.split(',')`, modelled on the character data. -/
def pySplitComma (s : String) : List String :=
  (splitOnChar ',' s.data).map String.mk

/-- Pandas `df['Symbol'].dropna().astype(str).str.upper().tolist()`. -/
def symbolColumn (cells : List (Option String)) : List String :=
  (cells.filterMap id).map pyUpper

/-- Ticker resolution.  The directory branch ends in
`list(set(ticker_list))`: Python's `set` iteration order is not a function
of the element values alone (string hashing is salted per process), so the
embedding takes it as a parameter `setOrder`; any duplicate-free
reordering of the collected list is an admissible behaviour of the code.
Note the code has no failure path: resolution is a total function. -/
def resolveTickers (setOrder : List String → List String) :
    TickerSource → List String
  | .dir files => setOrder (files.foldl (fun acc f => acc ++ symbolColumn f) [])
  | .file cells => symbolColumn cells
  | .inline s => (pySplitComma s).map (fun t => pyUpper (pyStrip t))

/-- A `setOrder` function is an admissible model of `list(set(l))` on
input `l` when its output enumerates the distinct elements of `l` exactly
once, in some order. -/
def admissibleSetOrder (setOrder : List String → List String)
    (l : List String) : Prop :=
  (setOrder l).Perm l.dedup

/-- One admissible `list(set(·))`: first-seen order. -/
def setOrderFirstSeen (l : List String) : List String := l.dedup

/-- Another admissible `list(set(·))`: last-seen-first order. -/
def setOrderReversed (l : List String) : List String := l.dedup.reverse

/-- The chunking loop `while i < len(ticker_list): chunk =
ticker_list[i:i+chunk_size]` with `chunk_size = 100`: each chunk is one
`yf.download` call. -/
def fetchChunks : List String → List (List String)
  | [] => []
  | x :: rest => (x :: rest).take 100 :: fetchChunks ((x :: rest).drop 100)
termination_by l => l.length
decreasing_by
  simp only [List.length_drop, List.length_cons]
  omega

/-! ## Schema normalisation (`download`, lines 142–166) -/

/-- A raw response table as a list of named column series (the `Date`
column included); all series share the row count of the frame. -/
def RawTable := List (String × List Int)

/-- Python `str.endswith(suffix)`, modelled on the character data: the
suffix equals the last `len(suffix)` characters. -/
def pyEndsWith (s suffix : String) : Bool :=
  suffix.data == s.data.drop (s.data.length - suffix.data.length)

/-- The rename table of lines 146–154, applied to one column name. -/
def renameMap (symbol c : String) : String :=
  if c = "Open_" ++ symbol then "Open"
  else if c = "High_" ++ symbol then "High"
  else if c = "Low_" ++ symbol then "Low"
  else if c = "Close_" ++ symbol then "Close"
  else if c = "Adj Close_" ++ symbol then "Adj Close"
  else if c = "Adj_Close_" ++ symbol then "Adj Close"
  else if c = "Volume_" ++ symbol then "Volume"
  else c

/-- Lines 142–166 for one symbol: select `['Date'] + ` the columns ending
in `_<symbol>`, rename them to canonical field names, and reorder to the
canonical column order keeping only the columns present. -/
def normalizeSymbol (tbl : RawTable) (symbol : String) : RawTable :=
  let cols := "Date" :: (tbl.map Prod.fst).filter
    (fun c => pyEndsWith c ("_" ++ symbol))
  let dfSymbol := cols.filterMap
    (fun n => (tbl.find? (fun p => p.1 = n)).map
      (fun p => (renameMap symbol p.1, p.2)))
  let ordered := ["Date", "Ticker", "Open", "High", "Low", "Close",
    "Adj Close", "Volume"]
  let available := ordered.filter
    (fun c => (dfSymbol.map Prod.fst).contains c)
  available.filterMap (fun n => dfSymbol.find? (fun p => p.1 = n))

/-- Number of records (rows) of a normalised table: the length of its
`Date` series. -/
def numRecords (tbl : RawTable) : Nat :=
  match tbl.find? (fun p => p.1 = "Date") with
  | some p => p.2.length
  | none => 0

/-! ## Sample records used in concrete evaluations -/

/-- A record for date `d` with `Close = Adj Close = c` and the other
fields zero. -/
def mkRec (d : Nat) (c : Int) : PriceRecord :=
  ⟨d, 0, 0, 0, c, c, 0⟩

/-! ## Lemmas about the merge step -/

theorem datesOf_cons (r : PriceRecord) (l : List PriceRecord) :
    datesOf (r :: l) = r.date :: datesOf l := rfl

theorem mem_of_mem_dropDupKeepLast {a : PriceRecord} :
    ∀ {l : List PriceRecord}, a ∈ dropDupKeepLast l → a ∈ l
  | [], h => by simp [dropDupKeepLast] at h
  | r :: rest, h => by
    by_cases hc : rest.any (fun x => x.date = r.date)
    · simp only [dropDupKeepLast, if_pos hc] at h
      exact List.mem_cons_of_mem _ (mem_of_mem_dropDupKeepLast h)
    · simp only [dropDupKeepLast, if_neg hc, List.mem_cons] at h
      rcases h with h | h
      · exact h ▸ List.mem_cons_self _ _
      · exact List.mem_cons_of_mem _ (mem_of_mem_dropDupKeepLast h)

theorem date_mem_dropDupKeepLast {d : Nat} :
    ∀ {l : List PriceRecord},
      d ∈ datesOf (dropDupKeepLast l) ↔ d ∈ datesOf l
  | [] => by simp [dropDupKeepLast]
  | r :: rest => by
    by_cases hc : rest.any (fun x => x.date = r.date)
    · simp only [dropDupKeepLast, if_pos hc, datesOf_cons, List.mem_cons]
      rw [date_mem_dropDupKeepLast]
      constructor
      · exact Or.inr
      · rintro (h | h)
        · subst h
          rcases List.any_eq_true.mp hc with ⟨x, hx, hxd⟩
          simp only [decide_eq_true_eq] at hxd
          exact List.mem_map.mpr ⟨x, hx, hxd⟩
        · exact h
    · simp only [dropDupKeepLast, if_neg hc, datesOf_cons, List.mem_cons]
      rw [date_mem_dropDupKeepLast]

theorem nodup_datesOf_dropDupKeepLast :
    ∀ (l : List PriceRecord), (datesOf (dropDupKeepLast l)).Nodup
  | [] => by simp [dropDupKeepLast, datesOf]
  | r :: rest => by
    by_cases hc : rest.any (fun x => x.date = r.date)
    · simpa only [dropDupKeepLast, if_pos hc]
        using nodup_datesOf_dropDupKeepLast rest
    · simp only [dropDupKeepLast, if_neg hc, datesOf_cons, List.nodup_cons]
      refine ⟨fun hmem => ?_, nodup_datesOf_dropDupKeepLast rest⟩
      rw [date_mem_dropDupKeepLast] at hmem
      rcases List.mem_map.mp hmem with ⟨x, hx, hxd⟩
      exact hc (List.any_eq_true.mpr ⟨x, hx, by simpa using hxd⟩)

theorem dropDupKeepLast_eq_self :
    ∀ {l : List PriceRecord}, (datesOf l).Nodup → dropDupKeepLast l = l
  | [], _ => rfl
  | r :: rest, h => by
    rcases List.nodup_cons.mp h with ⟨hr, hrest⟩
    have hc : rest.any (fun x => x.date = r.date) = false := by
      rw [List.any_eq_false]
      intro x hx
      simp only [decide_eq_true_eq]
      exact fun hxd => hr (List.mem_map.mpr ⟨x, hx, hxd⟩)
    simp only [dropDupKeepLast, hc, if_neg (by simp : ¬(false = true))]
    rw [dropDupKeepLast_eq_self hrest]

theorem dropDupKeepLast_append_of_covered :
    ∀ {l₁ l₂ : List PriceRecord},
      (∀ a ∈ l₁, ∃ b ∈ l₂, b.date = a.date) →
      dropDupKeepLast (l₁ ++ l₂) = dropDupKeepLast l₂
  | [], _, _ => by simp
  | a :: l₁, l₂, h => by
    rcases h a (List.mem_cons_self _ _) with ⟨b, hb, hbd⟩
    have hc : (l₁ ++ l₂).any (fun x => x.date = a.date) = true :=
      List.any_eq_true.mpr ⟨b, List.mem_append_right _ hb, by simpa using hbd⟩
    have step : dropDupKeepLast ((a :: l₁) ++ l₂) = dropDupKeepLast (l₁ ++ l₂) := by
      rw [List.cons_append]
      simp [dropDupKeepLast, hc]
    rw [step]
    exact dropDupKeepLast_append_of_covered
      (fun x hx => h x (List.mem_cons_of_mem _ hx))

theorem mem_dropDupKeepLast_append {inc : List PriceRecord}
    (hincN : (datesOf inc).Nodup) :
    ∀ {df : List PriceRecord}, (datesOf df).Nodup → ∀ {r : PriceRecord},
      (r ∈ dropDupKeepLast (df ++ inc) ↔
        r ∈ inc ∨ (r ∈ df ∧ r.date ∉ datesOf inc))
  | [], _, r => by
    rw [List.nil_append, dropDupKeepLast_eq_self hincN]
    simp
  | x :: df, hN, r => by
    rcases List.nodup_cons.mp hN with ⟨hx, hdf⟩
    by_cases hc : (df ++ inc).any (fun b => b.date = x.date)
    · have hxinc : x.date ∈ datesOf inc := by
        rcases List.any_eq_true.mp hc with ⟨b, hb, hbd⟩
        simp only [decide_eq_true_eq] at hbd
        rcases List.mem_append.mp hb with hb | hb
        · exact absurd (List.mem_map.mpr ⟨b, hb, hbd⟩) hx
        · exact List.mem_map.mpr ⟨b, hb, hbd⟩
      rw [List.cons_append]
      simp only [dropDupKeepLast, if_pos hc]
      rw [mem_dropDupKeepLast_append hincN hdf]
      constructor
      · rintro (h | ⟨h1, h2⟩)
        · exact Or.inl h
        · exact Or.inr ⟨List.mem_cons_of_mem _ h1, h2⟩
      · rintro (h | ⟨h1, h2⟩)
        · exact Or.inl h
        · rcases List.mem_cons.mp h1 with h1 | h1
          · exact absurd (h1 ▸ hxinc) h2
          · exact Or.inr ⟨h1, h2⟩
    · have hxnotinc : x.date ∉ datesOf inc := by
        intro hmem
        rcases List.mem_map.mp hmem with ⟨b, hb, hbd⟩
        exact hc (List.any_eq_true.mpr
          ⟨b, List.mem_append_right _ hb, by simpa using hbd⟩)
      rw [List.cons_append]
      simp only [dropDupKeepLast, if_neg hc, List.mem_cons]
      rw [mem_dropDupKeepLast_append hincN hdf]
      constructor
      · rintro (h | h | ⟨h1, h2⟩)
        · exact Or.inr ⟨Or.inl h, by rw [h]; exact hxnotinc⟩
        · exact Or.inl h
        · exact Or.inr ⟨Or.inr h1, h2⟩
      · rintro (h | ⟨h1 | h1, h2⟩)
        · exact Or.inr (Or.inl h)
        · exact Or.inl h1
        · exact Or.inr (Or.inr ⟨h1, h2⟩)

theorem sortByDate_perm (l : List PriceRecord) : (sortByDate l).Perm l :=
  List.perm_insertionSort _ l

theorem sorted_sortByDate (l : List PriceRecord) :
    (sortByDate l).Sorted (fun a b => a.date ≤ b.date) :=
  List.sorted_insertionSort _ l

theorem nodup_datesOf_of_uniqueAscending {l : List PriceRecord}
    (h : uniqueAscending l) : (datesOf l).Nodup := by
  rw [datesOf, List.Nodup, List.pairwise_map]
  exact h.imp (fun hlt => Nat.ne_of_lt hlt)

theorem uniqueAscending_of_sorted_nodup {l : List PriceRecord}
    (hs : l.Sorted (fun a b => a.date ≤ b.date))
    (hn : (datesOf l).Nodup) : uniqueAscending l := by
  rw [datesOf, List.Nodup, List.pairwise_map] at hn
  exact (hs.and hn).imp (fun ⟨hle, hne⟩ => Nat.lt_of_le_of_ne hle hne)

theorem sortByDate_eq_self {l : List PriceRecord}
    (h : uniqueAscending l) : sortByDate l = l :=
  List.Sorted.insertionSort_eq (h.imp (fun hlt => Nat.le_of_lt hlt))

theorem uniqueAscending_sortByDate_dropDupKeepLast (l : List PriceRecord) :
    uniqueAscending (sortByDate (dropDupKeepLast l)) := by
  refine uniqueAscending_of_sorted_nodup (sorted_sortByDate _) ?_
  have hperm : (datesOf (sortByDate (dropDupKeepLast l))).Perm
      (datesOf (dropDupKeepLast l)) := (sortByDate_perm _).map _
  exact hperm.nodup_iff.mpr (nodup_datesOf_dropDupKeepLast _)

/-! ## Claim C1: the merge-and-persist invariant -/

/-- C1 (counterexample to the claim as stated): when no prior file exists
the incoming frame is persisted unchanged, so an incoming frame whose
dates are out of order yields a persisted series that is not in ascending
date order — the invariant does not hold after every call. -/
theorem merge_invariant_counterexample :
    ¬ uniqueAscending
      (mergeStep none [mkRec 20240102 100, mkRec 20240101 50]) := by
  decide

/-- C1 (amended): provided the incoming frame has unique ascending dates
and the previously persisted series has no duplicate dates, after the
merge-and-persist step the persisted series has unique ascending dates,
and its records are exactly the incoming records together with the
previous records whose dates do not occur in the incoming frame. -/
theorem merge_invariant (old : Option (List PriceRecord))
    (inc : List PriceRecord) (hinc : uniqueAscending inc)
    (hold : ∀ df, old = some df → (datesOf df).Nodup) :
    uniqueAscending (mergeStep old inc) ∧
      ∀ r, (r ∈ mergeStep old inc ↔
        r ∈ inc ∨ ∃ df, old = some df ∧ r ∈ df ∧ r.date ∉ datesOf inc) := by
  cases old with
  | none =>
    refine ⟨hinc, fun r => ?_⟩
    simp [mergeStep]
  | some df =>
    have hdfN := hold df rfl
    have hincN := nodup_datesOf_of_uniqueAscending hinc
    refine ⟨uniqueAscending_sortByDate_dropDupKeepLast _, fun r => ?_⟩
    show r ∈ sortByDate (dropDupKeepLast (df ++ inc)) ↔ _
    rw [(sortByDate_perm _).mem_iff, mem_dropDupKeepLast_append hincN hdfN]
    simp

/-- C1 witness: the amended invariant applied to a concrete overlap. -/
theorem merge_invariant_witness :
    uniqueAscending
      (mergeStep (some [mkRec 20240102 100]) [mkRec 20240102 105]) ∧
      ∀ r, (r ∈ mergeStep (some [mkRec 20240102 100]) [mkRec 20240102 105] ↔
        r ∈ [mkRec 20240102 105] ∨
          ∃ df, (some [mkRec 20240102 100] : Option (List PriceRecord))
              = some df ∧ r ∈ df ∧ r.date ∉ datesOf [mkRec 20240102 105]) :=
  merge_invariant (some [mkRec 20240102 100]) [mkRec 20240102 105]
    (by decide) (by intro df h; rw [← Option.some.inj h]; decide)

/-! ## Claim C2: the no-prior-file branch -/

/-- C2 (counterexample to the claim as stated): with no prior file the
merge step does not sort — an out-of-order incoming frame is persisted in
its original order, not ascending by date. -/
theorem merge_no_prior_counterexample :
    mergeStep none [mkRec 20240102 100, mkRec 20240101 50]
      ≠ sortByDate [mkRec 20240102 100, mkRec 20240101 50] := by
  decide

/-- C2 (amended): when no prior file exists the incoming records are
persisted exactly as given, in their original order (no sorting and no
deduplication applied); the persisted output equals the claimed
sorted-by-Date output if and only if the incoming frame is already
sorted (non-strictly) by Date. -/
theorem merge_no_prior_file (inc : List PriceRecord) :
    mergeStep none inc = inc ∧
      (mergeStep none inc = sortByDate inc ↔
        inc.Sorted (fun a b => a.date ≤ b.date)) := by
  refine ⟨rfl, ?_, ?_⟩
  · intro h
    have h' : inc = sortByDate inc := h
    rw [h']
    exact sorted_sortByDate inc
  · intro hs
    exact (List.Sorted.insertionSort_eq hs).symm

/-- C2 witness: the amended statement applied to a sorted incoming frame. -/
theorem merge_no_prior_file_witness :
    mergeStep none [mkRec 20240101 1, mkRec 20240102 2]
        = [mkRec 20240101 1, mkRec 20240102 2] ∧
      mergeStep none [mkRec 20240101 1, mkRec 20240102 2]
        = sortByDate [mkRec 20240101 1, mkRec 20240102 2] :=
  ⟨(merge_no_prior_file _).1, (merge_no_prior_file _).2.mpr (by decide)⟩

/-! ## Claim C3: the prior-file merge -/

/-- Deduplication by date keeping the last occurrence, stated the way the
spec words it: scanning from the right, a record is kept when no
already-kept (that is, later) record carries its date. Used as the
specification side of the refinement claim C3. -/
def specDedupKeepLast (l : List PriceRecord) : List PriceRecord :=
  l.foldr
    (fun r acc => if acc.any (fun x => x.date = r.date) then acc
      else r :: acc) []

/-- The spec's description of the prior-file merge: concatenate stored
then incoming, deduplicate by date keeping the last occurrence, sort
ascending by date. -/
def specMergePriorFile (stored incoming : List PriceRecord) :
    List PriceRecord :=
  sortByDate (specDedupKeepLast (stored ++ incoming))

theorem dropDupKeepLast_eq_spec :
    ∀ l : List PriceRecord, dropDupKeepLast l = specDedupKeepLast l
  | [] => rfl
  | r :: rest => by
    have ih := dropDupKeepLast_eq_spec rest
    have hany : (dropDupKeepLast rest).any (fun x => x.date = r.date)
        = rest.any (fun x => x.date = r.date) := by
      cases hb : rest.any (fun x => x.date = r.date) with
      | true =>
        rcases List.any_eq_true.mp hb with ⟨x, hx, hxd⟩
        simp only [decide_eq_true_eq] at hxd
        have hdd : r.date ∈ datesOf (dropDupKeepLast rest) :=
          date_mem_dropDupKeepLast.mpr (List.mem_map.mpr ⟨x, hx, hxd⟩)
        rcases List.mem_map.mp hdd with ⟨y, hy, hyd⟩
        exact List.any_eq_true.mpr ⟨y, hy, by simpa using hyd⟩
      | false =>
        rw [List.any_eq_false] at hb ⊢
        intro x hx
        exact hb x (mem_of_mem_dropDupKeepLast hx)
    have hspec : specDedupKeepLast (r :: rest)
        = if (specDedupKeepLast rest).any (fun x => x.date = r.date)
          then specDedupKeepLast rest
          else r :: specDedupKeepLast rest := rfl
    rw [hspec, ← ih, hany]
    simp only [dropDupKeepLast]

/-- C3: merging stored `(2024-01-02, Close=100)` with incoming
`(2024-01-02, Close=105)` persists exactly one record for that date,
with `Close = 105`; and in general the prior-file branch computes
concatenate-stored-then-incoming, dedup-by-date-keep-last, sort-ascending,
as the spec describes. -/
theorem merge_prior_file_spec :
    mergeStep (some [mkRec 20240102 100]) [mkRec 20240102 105]
        = [mkRec 20240102 105] ∧
      ∀ stored incoming : List PriceRecord,
        mergeStep (some stored) incoming
          = specMergePriorFile stored incoming := by
  refine ⟨by decide, fun stored incoming => ?_⟩
  show sortByDate (dropDupKeepLast (stored ++ incoming)) = _
  rw [specMergePriorFile, dropDupKeepLast_eq_spec]

/-! ## Claim C4: merge idempotence -/

/-- C4 (counterexample to the claim as stated): merging an out-of-order
incoming frame once into an empty store persists it unsorted, while the
second identical merge sorts — the two final series differ. -/
theorem merge_idem_counterexample :
    mergeStep (some (mergeStep none [mkRec 20240102 100, mkRec 20240101 50]))
        [mkRec 20240102 100, mkRec 20240101 50]
      ≠ mergeStep none [mkRec 20240102 100, mkRec 20240101 50] := by
  decide

/-- C4 (amended): for an incoming frame whose dates are unique and
ascending, merging it twice in a row into an initially empty store yields
the same persisted series as merging it once. -/
theorem merge_idempotent_sorted (inc : List PriceRecord)
    (h : uniqueAscending inc) :
    mergeStep (some (mergeStep none inc)) inc = mergeStep none inc := by
  have hN := nodup_datesOf_of_uniqueAscending h
  show sortByDate (dropDupKeepLast (inc ++ inc)) = inc
  rw [dropDupKeepLast_append_of_covered (fun a ha => ⟨a, ha, rfl⟩),
    dropDupKeepLast_eq_self hN, sortByDate_eq_self h]

/-- C4 witness: idempotence at a concrete sorted incoming frame. -/
theorem merge_idempotent_sorted_witness :
    mergeStep (some (mergeStep none [mkRec 20240101 1, mkRec 20240102 2]))
        [mkRec 20240101 1, mkRec 20240102 2]
      = mergeStep none [mkRec 20240101 1, mkRec 20240102 2] :=
  merge_idempotent_sorted _ (by decide)

/-! ## Claim C7: resolution of valid relative date expressions -/

/-- C7: against a fixed `now`, `"_6d"`, `"+1d"`, `"_3m"` and `"_1y"`
resolve to `now` minus 6 days, plus 1 day, minus 90 days and minus 365
days respectively. -/
theorem parse_date_relative_offsets (now : Int) :
    parse_date "_6d" now = .ok (now - 6 * 86400) ∧
      parse_date "+1d" now = .ok (now + 1 * 86400) ∧
      parse_date "_3m" now = .ok (now - 3 * 30 * 86400) ∧
      parse_date "_1y" now = .ok (now - 1 * 365 * 86400) := by
  refine ⟨?_, ?_, ?_, ?_⟩
  · show parse_dateChars ['_', '6', 'd'] now = _
    rw [parse_dateChars_cons, if_neg (by decide),
      if_pos (Or.inl rfl : ('_' : Char) = '_' ∨ ('_' : Char) = '+'),
      parseRelative_some '_' now
        (show pyInt (['6', 'd'].dropLast) = some 6 from rfl)]
    simp [applyUnit]
    try ring
  · show parse_dateChars ['+', '1', 'd'] now = _
    rw [parse_dateChars_cons, if_neg (by decide),
      if_pos (Or.inr rfl : ('+' : Char) = '_' ∨ ('+' : Char) = '+'),
      parseRelative_some '+' now
        (show pyInt (['1', 'd'].dropLast) = some 1 from rfl)]
    simp [applyUnit]
    try ring
  · show parse_dateChars ['_', '3', 'm'] now = _
    rw [parse_dateChars_cons, if_neg (by decide),
      if_pos (Or.inl rfl : ('_' : Char) = '_' ∨ ('_' : Char) = '+'),
      parseRelative_some '_' now
        (show pyInt (['3', 'm'].dropLast) = some 3 from rfl)]
    simp [applyUnit]
    try ring
  · show parse_dateChars ['_', '1', 'y'] now = _
    rw [parse_dateChars_cons, if_neg (by decide),
      if_pos (Or.inl rfl : ('_' : Char) = '_' ∨ ('_' : Char) = '+'),
      parseRelative_some '_' now
        (show pyInt (['1', 'y'].dropLast) = some 1 from rfl)]
    simp [applyUnit]
    try ring

/-! ## Claim C5: malformed date expressions -/

/-- C5 (counterexample to the claim as stated): the malformed absolute
date `"2024-13-01"` fails with strptime's `ValueError`, not with
`click.BadParameter` (the spec's `InvalidDateExpression`). -/
theorem parse_date_malformed_counterexample :
    parse_date "2024-13-01" 0
        = Except.error (DateError.valueError "time data does not match format") ∧
      ∀ msg, parse_date "2024-13-01" 0
          ≠ Except.error (DateError.badParameter msg) := by
  refine ⟨rfl, fun msg h => ?_⟩
  rw [show parse_date "2024-13-01" 0
      = Except.error (DateError.valueError "time data does not match format")
      from rfl] at h
  injection h with h
  exact DateError.noConfusion h

/-- C5 (amended): a relative expression with a non-integer value or an
unrecognised unit fails with `InvalidDateExpression`
(`click.BadParameter`), while a malformed absolute date string fails with
a plain `ValueError` raised by strptime — a different error. -/
theorem parse_date_malformed (cs : List Char) (now : Int)
    (hnow : cs ≠ ['n', 'o', 'w']) :
    (∀ c rest, cs = c :: rest → (c = '_' ∨ c = '+') →
      (pyInt rest.dropLast = none →
        parse_dateChars cs now
          = .error (.badParameter "Invalid relative date value")) ∧
      (∀ v : Int, pyInt rest.dropLast = some v →
        rest.getLastD c ≠ 'd' → rest.getLastD c ≠ 'm' →
        rest.getLastD c ≠ 'y' →
        parse_dateChars cs now
          = .error (.badParameter "Invalid relative date unit"))) ∧
    ((∀ c rest, cs = c :: rest → ¬(c = '_' ∨ c = '+')) →
      strptimeYmd cs = none →
      parse_dateChars cs now
        = .error (.valueError "time data does not match format")) := by
  constructor
  · rintro c rest rfl hsign
    rw [parse_dateChars_cons, if_neg hnow, if_pos hsign]
    constructor
    · intro hpy
      exact parseRelative_none c now hpy
    · intro v hpy hd hm hy
      rw [parseRelative_some c now hpy, applyUnit, if_neg hd, if_neg hm,
        if_neg hy]
  · intro hnotrel habs
    cases cs with
    | nil => exact parseAbsolute_none habs
    | cons c rest =>
      rw [parse_dateChars_cons, if_neg hnow,
        if_neg (hnotrel c rest rfl)]
      exact parseAbsolute_none habs

/-- C5 witness: a non-integer relative value, a bad relative unit, and a
malformed absolute date, each evaluated concretely. -/
theorem parse_date_malformed_witness :
    parse_dateChars ['_', 'x', 'd'] 0
        = .error (.badParameter "Invalid relative date value") ∧
      parse_dateChars ['_', '3', 'x'] 0
        = .error (.badParameter "Invalid relative date unit") ∧
      parse_dateChars ['g'] 0
        = .error (.valueError "time data does not match format") :=
  ⟨((parse_date_malformed ['_', 'x', 'd'] 0 (by decide)).1 '_' ['x', 'd']
      rfl (Or.inl rfl)).1 (by decide),
   ((parse_date_malformed ['_', '3', 'x'] 0 (by decide)).1 '_' ['3', 'x']
      rfl (Or.inl rfl)).2 3 (by decide) (by decide) (by decide) (by decide),
   (parse_date_malformed ['g'] 0 (by decide)).2
      (by intro c rest h; cases h; decide) (by decide)⟩

/-! ## Claim C10: an inner sign multiplies with the leading sign -/

/-- C10: a relative expression whose interior value carries its own `-`
sign is accepted, and the two signs multiply: `_-<n>d` resolves to
`now + n` days and `+-<n>d` to `now - n` days. -/
theorem parse_date_inner_sign (now : Int) (ds : List Char) (v : Nat)
    (hval : parseDigits ds = some v) :
    parse_dateChars ('_' :: '-' :: (ds ++ ['d'])) now
        = .ok (now + v * 86400) ∧
      parse_dateChars ('+' :: '-' :: (ds ++ ['d'])) now
        = .ok (now - v * 86400) := by
  have hdrop : ('-' :: (ds ++ ['d'])).dropLast = '-' :: ds := by
    rw [show ('-' :: (ds ++ ['d'])) = ('-' :: ds) ++ ['d'] by simp,
      List.dropLast_concat]
  have hpy : pyInt (('-' :: (ds ++ ['d'])).dropLast) = some (-(v : Int)) := by
    rw [hdrop]
    exact pyInt_neg_digits hval
  constructor
  · have hnotnow : ('_' :: '-' :: (ds ++ ['d'])) ≠ ['n', 'o', 'w'] := by
      intro h
      exact absurd (List.head_eq_of_cons_eq h) (by decide)
    have hlast : ('-' :: (ds ++ ['d'])).getLastD '_' = 'd' := by
      rw [show ('-' :: (ds ++ ['d'])) = ('-' :: ds) ++ ['d'] by simp,
        List.getLastD_concat]
    rw [parse_dateChars_cons, if_neg hnotnow,
      if_pos (Or.inl rfl : ('_' : Char) = '_' ∨ ('_' : Char) = '+'),
      parseRelative_some '_' now hpy, hlast]
    simp [applyUnit]
  · have hnotnow : ('+' :: '-' :: (ds ++ ['d'])) ≠ ['n', 'o', 'w'] := by
      intro h
      exact absurd (List.head_eq_of_cons_eq h) (by decide)
    have hlast : ('-' :: (ds ++ ['d'])).getLastD '+' = 'd' := by
      rw [show ('-' :: (ds ++ ['d'])) = ('-' :: ds) ++ ['d'] by simp,
        List.getLastD_concat]
    rw [parse_dateChars_cons, if_neg hnotnow,
      if_pos (Or.inr rfl : ('+' : Char) = '_' ∨ ('+' : Char) = '+'),
      parseRelative_some '+' now hpy, hlast]
    simp [applyUnit]
    ring

/-- C10 witness: `"_-3d"` resolves to `now + 3` days and `"+-3d"` to
`now - 3` days, at `now = 0`. -/
theorem parse_date_inner_sign_witness :
    parse_dateChars ('_' :: '-' :: (['3'] ++ ['d'])) 0
        = .ok (0 + (3 : Nat) * 86400) ∧
      parse_dateChars ('+' :: '-' :: (['3'] ++ ['d'])) 0
        = .ok (0 - (3 : Nat) * 86400) :=
  parse_date_inner_sign 0 ['3'] 3 (by decide)

/-! ## Claim C6: ticker resolution is never empty on success -/

/-- C6 (counterexample to the claim as stated): a directory source with
no reference files resolves to zero symbols and no error is raised —
`resolveTickers` is a total function with no `NoTickersFound` failure
path. -/
theorem resolve_tickers_zero_counterexample :
    (resolveTickers setOrderFirstSeen (TickerSource.dir [])).length = 0 :=
  rfl

/-- C6 (amended): resolution never fails — the code has no
`NoTickersFound` error — and it can succeed with zero symbols; in that
case the chunking loop partitions zero symbols into zero batches, so no
fetch is attempted. -/
theorem resolve_tickers_empty_no_fetch
    (setOrder : List String → List String) (src : TickerSource)
    (h : resolveTickers setOrder src = []) :
    fetchChunks (resolveTickers setOrder src) = [] := by
  rw [h, fetchChunks]

/-- C6 witness: the empty-directory resolution triggers zero fetches. -/
theorem resolve_tickers_empty_no_fetch_witness :
    fetchChunks (resolveTickers setOrderFirstSeen (TickerSource.dir []))
      = [] :=
  resolve_tickers_empty_no_fetch setOrderFirstSeen (TickerSource.dir []) rfl

/-! ## Claim C9: reproducible symbol order across runs -/

/-- C9: the directory branch ends in `list(set(ticker_list))`, whose
order is the per-process (hash-seed dependent) set iteration order.  Both
`setOrderFirstSeen` and `setOrderReversed` are admissible iteration
orders — each enumerates the distinct collected symbols exactly once —
yet on the same reference-file contents they resolve to different symbol
orders, so two runs need not produce the same order or the same
batching. -/
theorem resolve_tickers_order_not_determined :
    (∀ l : List String, admissibleSetOrder setOrderFirstSeen l ∧
        admissibleSetOrder setOrderReversed l) ∧
      resolveTickers setOrderFirstSeen
          (TickerSource.dir [[some "AAPL", some "MSFT"]])
        ≠ resolveTickers setOrderReversed
          (TickerSource.dir [[some "AAPL", some "MSFT"]]) := by
  refine ⟨fun l => ⟨List.Perm.refl _, List.reverse_perm _⟩, ?_⟩
  decide

/-! ## Claim C8: a symbol with no matching columns -/

theorem ne_append_of_head_ne (s pre : String) {c : Char} {cs : List Char}
    (hpre : pre.data = c :: cs) (hc : ¬ c = 'D') :
    "Date" ≠ pre ++ s := by
  intro h
  have hd := congrArg String.data h
  rw [String.data_append, hpre, List.cons_append] at hd
  rw [show "Date".data = ['D', 'a', 't', 'e'] from rfl] at hd
  exact hc (List.head_eq_of_cons_eq hd).symm

theorem renameMap_date (s : String) : renameMap s "Date" = "Date" := by
  unfold renameMap
  rw [if_neg (ne_append_of_head_ne s "Open_" rfl (by decide)),
    if_neg (ne_append_of_head_ne s "High_" rfl (by decide)),
    if_neg (ne_append_of_head_ne s "Low_" rfl (by decide)),
    if_neg (ne_append_of_head_ne s "Close_" rfl (by decide)),
    if_neg (ne_append_of_head_ne s "Adj Close_" rfl (by decide)),
    if_neg (ne_append_of_head_ne s "Adj_Close_" rfl (by decide)),
    if_neg (ne_append_of_head_ne s "Volume_" rfl (by decide))]

/-- C8 (counterexample to the claim as stated): a table with one row and
no columns for symbol `MSFT` normalises, for `MSFT`, to a Date-only table
that still holds that row — one record, not an empty record sequence —
and this frame is what the merge step persists. -/
theorem normalize_no_match_counterexample :
    normalizeSymbol [("Date", [20240102]), ("Close_AAPL", [100])] "MSFT"
        = [("Date", [20240102])] ∧
      numRecords (normalizeSymbol
        [("Date", [20240102]), ("Close_AAPL", [100])] "MSFT") ≠ 0 :=
  ⟨rfl, by decide⟩

/-- C8 (amended): a requested symbol with no matching `(field, symbol)`
columns in the raw table yields, without error, a record sequence holding
only the table's `Date` column — one Date-only record per table row, no
price fields (and the empty sequence only when the table has no `Date`
column); this Date-only frame is then persisted. -/
theorem normalize_no_match (tbl : RawTable) (symbol : String)
    (h : ∀ c ∈ tbl.map Prod.fst, pyEndsWith c ("_" ++ symbol) = false) :
    normalizeSymbol tbl symbol
      = ((tbl.find? (fun p => p.1 = "Date")).map (fun p => [p])).getD [] := by
  unfold normalizeSymbol
  have hfilter : (tbl.map Prod.fst).filter
      (fun c => pyEndsWith c ("_" ++ symbol)) = [] := by
    rw [List.filter_eq_nil_iff]
    intro c hc
    simp [h c hc]
  rw [hfilter]
  cases hfind : tbl.find? (fun p => p.1 = "Date") with
  | none => simp [hfind]
  | some p =>
    obtain ⟨c1, ser⟩ := p
    have hp : c1 = "Date" := by simpa using List.find?_some hfind
    subst hp
    simp [hfind, renameMap_date]

/-- C8 witness: the amended statement applied to the one-row table with
only an `AAPL` close column, for symbol `MSFT`. -/
theorem normalize_no_match_witness :
    normalizeSymbol [("Date", [20240103]), ("Close_AAPL", [101])] "MSFT"
      = ((([("Date", [20240103]), ("Close_AAPL", [101])] : RawTable).find?
          (fun p => p.1 = "Date")).map (fun p => [p])).getD [] :=
  normalize_no_match [("Date", [20240103]), ("Close_AAPL", [101])] "MSFT"
    (by decide)

end Stocks
